import Mathlib

/-!
Shallow embedding of the Femur_Modeling dense linear-algebra layer
(src/include/linalg.hpp, src/src/linalg.cpp), the activation/loss functions
(src/src/neuralNetworkFunctions.cpp) and the feedforward network
(src/src/neuralNetwork.cpp), together with theorems settling the claims
about the natural-language specification.

Modelling conventions:
* The element type `T` (instantiated at `float`/`double` in the source) is
  modelled by `ℚ` with exact arithmetic; floating-point rounding is out of
  scope of the structural claims treated here.
* A C++ `Vector<T>` (fixed size, contiguous buffer) is a size together with
  an entry function `ℕ → ℚ`; only indices `< m_size` are meaningful.  An
  out-of-range read is undefined behaviour in the source; the model returns
  whatever the entry function yields there, and freshly constructed
  containers carry `0` outside their range (Eigen's `Zero` allocation).
* The idiom `Result r(n); for (i...) r.setCoeff(i, e_i);` — a zero
  allocation followed by a loop of in-bounds bounds-checked writes — is
  modelled by `Vector.build` / `Matrix2D.build`, which produce exactly the
  final buffer contents of that loop.
* `std::cout` / `std::cerr` diagnostics accompany the degraded return
  values in the source; only the returned values are modelled.
* The scalar sigmoid `1/(1+exp(-x))` is transcendental, hence not a map
  `ℚ → ℚ`; every network operation is parametrized by the scalar activation
  `sig : ℚ → ℚ`.  All claims treated here are independent of the concrete
  scalar activation.
-/

namespace Femur

/-- Embeds `Vector<T>` (src/include/linalg.hpp:29-208): a fixed size
`m_size` and the buffer contents as an entry function. -/
structure Vector where
  m_size : ℕ
  m_data : ℕ → ℚ

/-- Embeds `Matrix2D<T>` (src/include/linalg.hpp:220-442): fixed shape
`m_rows × m_cols` with row-major buffer contents as an entry function. -/
structure Matrix2D where
  m_rows : ℕ
  m_cols : ℕ
  m_data : ℕ → ℕ → ℚ

namespace Vector

/-- Embeds the constructor `Vector(size_t s)` (src/src/linalg.cpp:23-24):
a zero-initialized vector of size `s`. -/
def mkZero (s : ℕ) : Vector := ⟨s, fun _ => 0⟩

/-- Allocation of a zero vector of size `n` followed by the loop
`for (i = 0; i < n; ++i) result.setCoeff(i, f i)`; every write is in
bounds, so the final buffer holds `f i` below `n` and `0` elsewhere.
This is the construction idiom of every vector-returning operation in
src/src/linalg.cpp. -/
def build (n : ℕ) (f : ℕ → ℚ) : Vector := ⟨n, fun i => if i < n then f i else 0⟩

/-- Embeds the constructor `Vector(size_t s, const std::vector<T>&)`
(src/src/linalg.cpp:29-34): entries below `min s init.length` come from
the list, the rest stay zero. -/
def ofList (s : ℕ) (init : List ℚ) : Vector :=
  ⟨s, fun i => if i < s ∧ i < init.length then init.getD i 0 else 0⟩

/-- Embeds `Vector<T>::getSize` (src/src/linalg.cpp:41-44). -/
def getSize (v : Vector) : ℕ := v.m_size

/-- Embeds `Vector<T>::isZero` (src/src/linalg.cpp:46-54): true iff every
in-range entry compares equal to zero. -/
def isZero (v : Vector) : Bool :=
  (List.range v.m_size).all fun i => v.m_data i == 0

/-- Embeds `Vector<T>::operator==` (src/src/linalg.cpp:56-67): sizes equal
and every in-range entry equal (exact comparison). -/
def beq (a b : Vector) : Bool :=
  if a.m_size ≠ b.m_size then false
  else (List.range a.m_size).all fun i => a.m_data i == b.m_data i

/-- Embeds `Vector<T>::setCoeff` (src/src/linalg.cpp:74-81): bounds-checked
write; out-of-range indices leave the vector unchanged (the source also
reports `false`, not modelled). -/
def setCoeff (v : Vector) (i : ℕ) (x : ℚ) : Vector :=
  if i ≥ v.m_size then v
  else ⟨v.m_size, fun j => if j = i then x else v.m_data j⟩

/-- Embeds `Vector<T>::operator*(const T scalar)`
(src/src/linalg.cpp:86-93): elementwise scalar multiple, new vector. -/
def smul (v : Vector) (c : ℚ) : Vector :=
  build v.m_size fun i => v.m_data i * c

/-- Embeds `Vector<T>::operator+` (src/src/linalg.cpp:95-106): on size
mismatch the left operand is returned unchanged, otherwise the
elementwise sum is built into a fresh vector. -/
def add (a b : Vector) : Vector :=
  if a.m_size ≠ b.m_size then a
  else build a.m_size fun i => a.m_data i + b.m_data i

/-- Embeds `Vector<T>::operator-` (src/src/linalg.cpp:108-119): on size
mismatch the left operand is returned unchanged, otherwise the
elementwise difference is built into a fresh vector. -/
def sub (a b : Vector) : Vector :=
  if a.m_size ≠ b.m_size then a
  else build a.m_size fun i => a.m_data i - b.m_data i

/-- Modelled from the spec: `Vector<T>::hadamard` is declared at
src/include/linalg.hpp:196 but its implementation is not under src/.
Spec §4.1 and the header doc: elementwise product of two equal-length
vectors; a zero vector is returned on size mismatch (the spec leaves the
fallback length unspecified; the left operand's size is used here — the
claims treated below never depend on that choice). -/
def hadamard (a b : Vector) : Vector :=
  if a.m_size ≠ b.m_size then mkZero a.m_size
  else build a.m_size fun i => a.m_data i * b.m_data i

/-- Modelled from the spec: `Vector<T>::outerProduct` is declared at
src/include/linalg.hpp:207 but its implementation is not under src/.
Spec §4.1 and glossary: a matrix of shape `(this.size, other.size)` whose
`(i,j)` entry is `a_i * b_j`. -/
def outerProduct (a b : Vector) : Matrix2D :=
  ⟨a.m_size, b.m_size, fun i j =>
    if i < a.m_size ∧ j < b.m_size then a.m_data i * b.m_data j else 0⟩

end Vector

namespace Matrix2D

/-- Embeds the constructor `Matrix2D(size_t rows, size_t cols)`
(src/src/linalg.cpp:159-160): a zero-initialized `rows × cols` matrix. -/
def mkZero (r c : ℕ) : Matrix2D := ⟨r, c, fun _ _ => 0⟩

/-- Allocation of a zero `r × c` matrix followed by the nested loop
`for i < r, for j < c: result.setCoeff(i, j, f i j)`; every write is in
bounds, so the final buffer holds `f i j` inside the shape and `0`
elsewhere.  This is the construction idiom of every matrix-returning
operation in src/src/linalg.cpp. -/
def build (r c : ℕ) (f : ℕ → ℕ → ℚ) : Matrix2D :=
  ⟨r, c, fun i j => if i < r ∧ j < c then f i j else 0⟩

/-- Embeds `Matrix2D<T>::getSizeRows` (src/src/linalg.cpp:170-173). -/
def getSizeRows (m : Matrix2D) : ℕ := m.m_rows

/-- Embeds `Matrix2D<T>::getSizeCols` (src/src/linalg.cpp:175-178). -/
def getSizeCols (m : Matrix2D) : ℕ := m.m_cols

/-- Embeds `Matrix2D<T>::setCoeff` (src/src/linalg.cpp:206-214):
bounds-checked write; out-of-range indices leave the matrix unchanged. -/
def setCoeff (m : Matrix2D) (i j : ℕ) (x : ℚ) : Matrix2D :=
  if i ≥ m.m_rows ∨ j ≥ m.m_cols then m
  else ⟨m.m_rows, m.m_cols, fun i' j' => if i' = i ∧ j' = j then x else m.m_data i' j'⟩

/-- Embeds `Matrix2D<T>::operator==` (src/src/linalg.cpp:252-265): shapes
equal and every in-range entry equal (exact comparison). -/
def beq (a b : Matrix2D) : Bool :=
  if a.m_rows ≠ b.m_rows ∨ a.m_cols ≠ b.m_cols then false
  else (List.range a.m_rows).all fun i =>
    (List.range a.m_cols).all fun j => a.m_data i j == b.m_data i j

/-- Embeds `Matrix2D<T>::operator*(const float scalar)`
(src/src/linalg.cpp:273-282).  The source narrows the scalar to `float`
even for `double` matrices; under the exact-arithmetic model the scalar
is a single `ℚ`. -/
def smul (m : Matrix2D) (c : ℚ) : Matrix2D :=
  build m.m_rows m.m_cols fun i j => m.m_data i j * c

/-- Embeds `Matrix2D<T>::operator+` (src/src/linalg.cpp:284-297): on shape
mismatch the left operand is returned unchanged, otherwise the
elementwise sum is built into a fresh matrix. -/
def add (a b : Matrix2D) : Matrix2D :=
  if a.m_rows ≠ b.m_rows ∨ a.m_cols ≠ b.m_cols then a
  else build a.m_rows a.m_cols fun i j => a.m_data i j + b.m_data i j

/-- Embeds `Matrix2D<T>::operator-` (src/src/linalg.cpp:299-312): on shape
mismatch the left operand is returned unchanged, otherwise the
elementwise difference is built into a fresh matrix. -/
def sub (a b : Matrix2D) : Matrix2D :=
  if a.m_rows ≠ b.m_rows ∨ a.m_cols ≠ b.m_cols then a
  else build a.m_rows a.m_cols fun i j => a.m_data i j - b.m_data i j

/-- Embeds `Matrix2D<T>::operator*(const Vector<T>&)`
(src/src/linalg.cpp:333-348): requires `m_cols == vec.getSize()`; on
mismatch the source returns `Vector<T>(0)` — the zero-length vector.
Otherwise entry `j` is the running sum `Σ_{i<m_cols} m(j,i) * vec(i)`
accumulated left to right. -/
def mulVec (m : Matrix2D) (v : Vector) : Vector :=
  if m.m_cols ≠ v.getSize then Vector.mkZero 0
  else Vector.build m.m_rows fun j =>
    (List.range m.m_cols).foldl (fun s i => s + m.m_data j i * v.m_data i) 0

/-- Modelled from the spec: `Matrix2D<T>::transpose` is declared at
src/include/linalg.hpp:441 but its implementation is not under src/.
Spec §4.2: a new matrix of shape `(cols, rows)` — entry `(i,j)` of the
result is entry `(j,i)` of the source — with no mutation of the source
(automatic here, the model is purely functional). -/
def transpose (m : Matrix2D) : Matrix2D :=
  build m.m_cols m.m_rows fun i j => m.m_data j i

end Matrix2D

namespace ActivationFunction

/-- Embeds `ActivationFunction<T>::sigmoidDerivative(T)`
(src/src/neuralNetworkFunctions.cpp:11-15): computes the sigmoid of the
pre-activation internally and returns `sig * (1 - sig)`.  The scalar
sigmoid itself (src/src/neuralNetworkFunctions.cpp:6-9) is the
transcendental `1/(1+exp(-x))` and enters the model as the parameter
`sig`. -/
def sigmoidDerivative (sig : ℚ → ℚ) (x : ℚ) : ℚ := sig x * (1 - sig x)

/-- Embeds `ActivationFunction<T>::sigmoid(const Vector<T>&)`
(src/src/neuralNetworkFunctions.cpp:18-25): the elementwise lift of the
scalar sigmoid. -/
def sigmoid (sig : ℚ → ℚ) (v : Vector) : Vector :=
  Vector.build v.getSize fun i => sig (v.m_data i)

/-- Embeds `ActivationFunction<T>::sigmoidDerivative(const Vector<T>&)`
(src/src/neuralNetworkFunctions.cpp:27-34): the elementwise lift of the
scalar sigmoid derivative. -/
def sigmoidDerivativeVec (sig : ℚ → ℚ) (v : Vector) : Vector :=
  Vector.build v.getSize fun i => sigmoidDerivative sig (v.m_data i)

end ActivationFunction

namespace LossFunction

/-- Embeds `LossFunction<T>::meanSquaredError`
(src/src/neuralNetworkFunctions.cpp:54-66): `0` on size mismatch,
otherwise the running sum of squared differences divided by the size. -/
def meanSquaredError (predicted actual : Vector) : ℚ :=
  if predicted.getSize ≠ actual.getSize then 0
  else ((List.range predicted.getSize).foldl
    (fun s i => s + (predicted.m_data i - actual.m_data i) * (predicted.m_data i - actual.m_data i)) 0)
    / (predicted.getSize : ℚ)

/-- Embeds `LossFunction<T>::meanSquaredErrorDerivative`
(src/src/neuralNetworkFunctions.cpp:68-79): the zero-length vector
`Vector<T>(0)` on size mismatch, otherwise entry `i` is
`2 * (predicted_i - actual_i) / n`. -/
def meanSquaredErrorDerivative (predicted actual : Vector) : Vector :=
  if predicted.getSize ≠ actual.getSize then Vector.mkZero 0
  else Vector.build predicted.getSize fun i =>
    2 * (predicted.m_data i - actual.m_data i) / (predicted.getSize : ℚ)

end LossFunction

/-- Embeds the state of `NeuralNetwork<T>` (src/include/neuralNetwork.hpp:31-55):
layer sizes, per-layer weight matrices and bias vectors, activation and loss
identifiers, learning rate, and the transient per-forward-pass activation
and pre-activation storage. -/
structure NeuralNetwork where
  m_layers : List ℕ
  m_weights : List Matrix2D
  m_biases : List Vector
  m_activation : String
  m_loss : String
  m_learningRate : ℚ
  m_activations : List Vector
  m_preActivations : List Vector

namespace NeuralNetwork

/-- Embeds the allocation loop of the list constructor
(src/src/neuralNetwork.cpp:21-29) fused with `initializeWeights`
(src/src/neuralNetwork.cpp:100-124): for each adjacent pair
`(layers[k], layers[k+1])` a weight matrix of shape
`(layers[k+1], layers[k])` and a bias vector of length `layers[k+1]` are
allocated; `initializeWeights` then overwrites every weight entry with a
pseudo-random normal draw and re-zeroes the biases.  Every `setCoeff`
there lands in bounds because the loop bounds are exactly the freshly
allocated shapes.  The `std::mt19937`/`normal_distribution` draw for
position `(k, i, j)` is abstracted as the uninterpreted function
`draws k i j`. -/
def buildLayers (draws : ℕ → ℕ → ℕ → ℚ) (k : ℕ) : List ℕ → List Matrix2D × List Vector
  | l0 :: l1 :: rest =>
      let r := buildLayers draws (k + 1) (l1 :: rest)
      (Matrix2D.build l1 l0 (draws k) :: r.1, Vector.mkZero l1 :: r.2)
  | _ => ([], [])

/-- Embeds the list constructor `NeuralNetwork(layers, learningRate)`
(src/src/neuralNetwork.cpp:9-33): activation and loss identifiers are
fixed; with fewer than two layers the constructor reports an error and
leaves the weight and bias lists empty. -/
def ofLayers (layers : List ℕ) (learningRate : ℚ) (draws : ℕ → ℕ → ℕ → ℚ) :
    NeuralNetwork :=
  if layers.length < 2 then
    ⟨layers, [], [], "sigmoid", "meanSquaredError", learningRate, [], []⟩
  else
    let r := buildLayers draws 0 layers
    ⟨layers, r.1, r.2, "sigmoid", "meanSquaredError", learningRate, [], []⟩

/-- Embeds the propagation loop of `forward`
(src/src/neuralNetwork.cpp:146-156): for each weight layer,
`z = W * a + b` is recorded as a pre-activation, the sigmoid of `z`
becomes the next activation.  Returns the pre-activation list, the
activation list (`a_1, ..., a_L`) and the final activation.  The source
indexes `m_biases[layer]` under the loop bound `m_weights.size()`; a
missing bias (undefined behaviour in C++) is modelled by the empty
vector default. -/
def forwardLoop (sig : ℚ → ℚ) :
    List Matrix2D → List Vector → Vector → List Vector × List Vector × Vector
  | [], _, a => ([], [], a)
  | w :: ws, bs, a =>
      let z := (w.mulVec a).add (bs.headD (Vector.mkZero 0))
      let a' := ActivationFunction.sigmoid sig z
      let r := forwardLoop sig ws bs.tail a'
      (z :: r.1, a' :: r.2.1, r.2.2)

/-- Embeds `NeuralNetwork<T>::forward` (src/src/neuralNetwork.cpp:127-159).
On input-size mismatch with `m_layers[0]` a size error is reported and a
zero vector of length `m_layers.back()` is returned with the state
untouched (the transient vectors are cleared only after the check).
Otherwise the transient storage is overwritten: `m_activations` holds
`input, a_1, ..., a_L` and `m_preActivations` holds `z_1, ..., z_L`. -/
def forward (sig : ℚ → ℚ) (nn : NeuralNetwork) (input : Vector) :
    NeuralNetwork × Vector :=
  if input.getSize ≠ nn.m_layers.getD 0 0 then
    (nn, Vector.mkZero (nn.m_layers.getD (nn.m_layers.length - 1) 0))
  else
    let r := forwardLoop sig nn.m_weights nn.m_biases input
    ({ nn with m_activations := input :: r.2.1, m_preActivations := r.1 }, r.2.2)

/-- Embeds the hidden-layer loop of `backward`
(src/src/neuralNetwork.cpp:185-196), counting `layer` down from
`lastLayer - 1` to `0` (the fuel argument is `layer + 1`): each delta is
`(W[layer+1]^T * delta[layer+1]) ⊙ sigmoid_deriv(z[layer])`, where the
source expression `deltas[lastLayer - layer - 1]` always selects the most
recently pushed delta, carried here as `prev`.  The produced list runs
from layer `lastLayer - 1` down to layer `0`, matching the push order. -/
def hiddenDeltas (sig : ℚ → ℚ) (ws : List Matrix2D) (zs : List Vector) :
    ℕ → Vector → List Vector
  | 0, _ => []
  | n + 1, prev =>
      let wT := (ws.getD (n + 1) (Matrix2D.mkZero 0 0)).transpose
      let weighted := wT.mulVec prev
      let sd := ActivationFunction.sigmoidDerivativeVec sig (zs.getD n (Vector.mkZero 0))
      let cur := weighted.hadamard sd
      cur :: hiddenDeltas sig ws zs n cur

/-- Embeds the update loop of `backward`
(src/src/neuralNetwork.cpp:202-211): for each weight layer,
`W -= lr * (delta ⊗ a)` and `b -= lr * delta`.  The loop is bounded by
the weight count, so bias entries beyond it are left untouched; the
parallel index walks over biases, deltas and stored activations are
modelled by consuming those lists in step (with empty-vector defaults in
the out-of-range cases that are undefined behaviour in the source). -/
def updateParams (lr : ℚ) :
    List Matrix2D → List Vector → List Vector → List Vector →
    List Matrix2D × List Vector
  | [], bs, _, _ => ([], bs)
  | w :: ws, bs, ds, acts =>
      let d := ds.headD (Vector.mkZero 0)
      let gradient := d.outerProduct (acts.headD (Vector.mkZero 0))
      let weightUpdate := gradient.smul lr
      let w' := w.sub weightUpdate
      let b' := (bs.headD (Vector.mkZero 0)).sub (d.smul lr)
      let r := updateParams lr ws bs.tail ds.tail acts.tail
      (w' :: r.1, b' :: r.2)

/-- Embeds `NeuralNetwork<T>::backward` (src/src/neuralNetwork.cpp:162-214):
re-runs `forward`, computes the MSE loss and its derivative on the
forward output, forms the output-layer delta as a Hadamard product,
back-propagates through the hidden layers, reverses the collected deltas
into forward order, applies the gradient-descent update, and returns the
scalar loss. -/
def backward (sig : ℚ → ℚ) (nn : NeuralNetwork) (input target : Vector) :
    NeuralNetwork × ℚ :=
  let fr := forward sig nn input
  let nn1 := fr.1
  let output := fr.2
  let loss := LossFunction.meanSquaredError output target
  let dLoss := LossFunction.meanSquaredErrorDerivative output target
  let lastLayer := nn1.m_weights.length - 1
  let sigmoidDeriv := ActivationFunction.sigmoidDerivativeVec sig
    (nn1.m_preActivations.getD lastLayer (Vector.mkZero 0))
  let delta := dLoss.hadamard sigmoidDeriv
  let deltas := (delta :: hiddenDeltas sig nn1.m_weights nn1.m_preActivations lastLayer delta).reverse
  let up := updateParams nn1.m_learningRate nn1.m_weights nn1.m_biases deltas nn1.m_activations
  ({ nn1 with m_weights := up.1, m_biases := up.2 }, loss)

/-- Embeds the per-epoch inner loop of `train`
(src/src/neuralNetwork.cpp:230-236): `backward` is called once per
example in input order, threading the network state and accumulating the
total loss into `acc`. -/
def runExamples (sig : ℚ → ℚ) :
    NeuralNetwork → ℚ → List (Vector × Vector) → NeuralNetwork × ℚ
  | nn, acc, [] => (nn, acc)
  | nn, acc, p :: ps =>
      let r := backward sig nn p.1 p.2
      runExamples sig r.1 (acc + r.2) ps

/-- Embeds the epoch loop of `train` (src/src/neuralNetwork.cpp:229-246):
each epoch runs the inner loop, records `totalLoss / inputs.size()` in
the history, and continues with the updated network.  `n` is
`inputs.size()`. -/
def trainLoop (sig : ℚ → ℚ) (pairs : List (Vector × Vector)) (n : ℕ) :
    NeuralNetwork → ℕ → NeuralNetwork × List ℚ
  | nn, 0 => (nn, [])
  | nn, e + 1 =>
      let r := runExamples sig nn 0 pairs
      let avg := r.2 / (n : ℚ)
      let rest := trainLoop sig pairs n r.1 e
      (rest.1, avg :: rest.2)

/-- Embeds `NeuralNetwork<T>::train` (src/src/neuralNetwork.cpp:217-249):
with mismatched input/target counts an error is reported and the empty
loss history is returned; otherwise the nested loops run.  The `verbose`
flag only controls `std::cout` progress logging, which is not modelled.
The inner loop indexes `targets[i]` for `i < inputs.size()`, which under
the guard is exactly the elementwise zip. -/
def train (sig : ℚ → ℚ) (nn : NeuralNetwork) (inputs targets : List Vector)
    (epochs : ℕ) (verbose : Bool) : NeuralNetwork × List ℚ :=
  if inputs.length ≠ targets.length then (nn, [])
  else trainLoop sig (inputs.zip targets) inputs.length nn epochs

/-- Embeds `NeuralNetwork<T>::predict` (src/src/neuralNetwork.cpp:252-255):
a plain call to `forward` on the same instance. -/
def predict (sig : ℚ → ℚ) (nn : NeuralNetwork) (input : Vector) :
    NeuralNetwork × Vector :=
  forward sig nn input

end NeuralNetwork

/-- Tokens of the whitespace-delimited persisted-model stream (spec §6).
`operator<<` / `operator>>` text formatting is idealized: a token carries
the exact written value, so integer tokens, numeric tokens and
(whitespace-free) name tokens round-trip exactly. -/
inductive Tok
  | nat (n : ℕ)
  | num (q : ℚ)
  | str (s : String)
deriving DecidableEq

namespace NeuralNetwork

/-- Row-major traversal of the in-range entries of a weight matrix, in
the order of the nested save loop (src/src/neuralNetwork.cpp:288-293). -/
def rowMajor (m : Matrix2D) : List ℚ :=
  (List.range m.m_rows).flatMap fun i => (List.range m.m_cols).map fun j => m.m_data i j

/-- In-range entries of a vector in index order, as written by the bias
save loop (src/src/neuralNetwork.cpp:296-299). -/
def entriesOf (v : Vector) : List ℚ :=
  (List.range v.m_size).map v.m_data

/-- Per-layer block of the save stream (src/src/neuralNetwork.cpp:282-300):
`rows cols`, the row-major weight entries, then the bias entries. -/
def layerTokens (w : Matrix2D) (b : Vector) : List Tok :=
  Tok.nat w.m_rows :: Tok.nat w.m_cols ::
    ((rowMajor w).map Tok.num ++ (entriesOf b).map Tok.num)

/-- Embeds the token stream written by `NeuralNetwork<T>::save`
(src/src/neuralNetwork.cpp:258-307), with the file I/O and text
formatting stripped: layer count, layer sizes, learning rate, activation
and loss names, then one block per weight layer.  The save loop is
bounded by `m_weights.size()` and indexes `m_biases[layer]`, which the
zip reproduces whenever the bias list is at least as long (shorter bias
lists are undefined behaviour in the source). -/
def saveTokens (nn : NeuralNetwork) : List Tok :=
  Tok.nat nn.m_layers.length ::
    (nn.m_layers.map Tok.nat ++
      (Tok.num nn.m_learningRate :: Tok.str nn.m_activation :: Tok.str nn.m_loss ::
        (nn.m_weights.zip nn.m_biases).flatMap fun p => layerTokens p.1 p.2))

/-- Reads one integer token, as `file >> (size_t)` does on a well-formed
stream; the stream-corruption path (failbit plus an unspecified value in
the source) is idealized as parse failure. -/
def readNat : List Tok → Option (ℕ × List Tok)
  | Tok.nat n :: r => some (n, r)
  | _ => none

/-- Reads one numeric token, as `file >> (T)` does on a well-formed
stream. -/
def readNum : List Tok → Option (ℚ × List Tok)
  | Tok.num q :: r => some (q, r)
  | _ => none

/-- Reads one name token, as `file >> (std::string)` does. -/
def readStr : List Tok → Option (String × List Tok)
  | Tok.str s :: r => some (s, r)
  | _ => none

/-- Reads `n` consecutive integer tokens (the layer-size loop,
src/src/neuralNetwork.cpp:47-51). -/
def readNats : ℕ → List Tok → Option (List ℕ × List Tok)
  | 0, r => some ([], r)
  | n + 1, r => do
      let (x, r1) ← readNat r
      let (xs, r2) ← readNats n r1
      pure (x :: xs, r2)

/-- Reads `n` consecutive numeric tokens (the weight and bias loops of
the loading constructor, src/src/neuralNetwork.cpp:69-84). -/
def readNums : ℕ → List Tok → Option (List ℚ × List Tok)
  | 0, r => some ([], r)
  | n + 1, r => do
      let (x, r1) ← readNum r
      let (xs, r2) ← readNums n r1
      pure (x :: xs, r2)

/-- Rebuilds the weight matrix of the loading constructor
(src/src/neuralNetwork.cpp:66-76): a zero `rows × cols` matrix whose
`(i,j)` entry is set from the `(i*cols + j)`-th streamed value. -/
def ofRowMajor (rows cols : ℕ) (vals : List ℚ) : Matrix2D :=
  Matrix2D.build rows cols fun i j => vals.getD (i * cols + j) 0

/-- Embeds the per-layer loop of the loading constructor
(src/src/neuralNetwork.cpp:61-86): read `rows cols`, then `rows * cols`
weight values into a fresh matrix, then `rows` bias values into a fresh
vector. -/
def readLayers : ℕ → List Tok → Option (List (Matrix2D × Vector) × List Tok)
  | 0, r => some ([], r)
  | n + 1, r => do
      let (rows, r1) ← readNat r
      let (cols, r2) ← readNat r1
      let (wvals, r3) ← readNums (rows * cols) r2
      let (bvals, r4) ← readNums rows r3
      let (rest, r5) ← readLayers n r4
      pure ((ofRowMajor rows cols wvals, Vector.ofList rows bvals) :: rest, r5)

/-- Embeds the file-loading constructor `NeuralNetwork(filename)`
(src/src/neuralNetwork.cpp:35-91) on the token stream of the opened
file: layer count, that many layer sizes, learning rate, activation and
loss names, then `numLayers - 1` per-layer blocks.  Trailing tokens are
ignored, the transient storage starts empty, and token-count/type
mismatches (not validated in the source, spec §7) are idealized as parse
failure. -/
def loadNetwork (toks : List Tok) : Option NeuralNetwork := do
  let (numLayers, r1) ← readNat toks
  let (sizes, r2) ← readNats numLayers r1
  let (lr, r3) ← readNum r2
  let (act, r4) ← readStr r3
  let (lossName, r5) ← readStr r4
  let (wbs, _r6) ← readLayers (numLayers - 1) r5
  pure ⟨sizes, wbs.map Prod.fst, wbs.map Prod.snd, act, lossName, lr, [], []⟩

/-- Decidable form of the Layer shape invariant of spec §3:
`weights[k].rows == biases[k].size == layers[k+1]` and
`weights[k].cols == layers[k]` for every layer index `k`, stated as a
chain along the layer list; it forces
`weights.length = biases.length = layers.length - 1` with
`layers.length ≥ 1`. -/
def layerShapesOK : List ℕ → List Matrix2D → List Vector → Bool
  | [_], [], [] => true
  | l0 :: l1 :: rest, w :: ws, b :: bs =>
      w.m_rows == l1 && w.m_cols == l0 && b.m_size == l1 &&
        layerShapesOK (l1 :: rest) ws bs
  | _, _, _ => false

/-- Aggregate well-formedness of a network state: the Layer shape
invariant of spec §3 for its own layer list, weights and biases. -/
def wellFormed (nn : NeuralNetwork) : Bool :=
  layerShapesOK nn.m_layers nn.m_weights nn.m_biases

end NeuralNetwork

/-- Pointwise agreement of two vectors as containers: equal sizes and
equal entries at every in-range index.  This is the propositional
reading of `Vector<T>::operator==`. -/
def VecEquiv (a b : Vector) : Prop :=
  a.m_size = b.m_size ∧ ∀ i < a.m_size, a.m_data i = b.m_data i

/-- Refinement target for claim C1, written from the spec's words
(spec §4.5): the mathematical matrix-vector product
`(W · a)_j = Σ_{i < cols} W_{j,i} * a_i`. -/
def specMatVec (w : Matrix2D) (a : Vector) : Vector :=
  ⟨w.m_rows, fun j => ∑ i in Finset.range w.m_cols, w.m_data j i * a.m_data i⟩

/-- Refinement target for claim C1, written from the spec's words
(spec §4.5): pointwise vector addition. -/
def specAdd (u v : Vector) : Vector :=
  ⟨u.m_size, fun i => u.m_data i + v.m_data i⟩

/-- Refinement target for claim C1, written from the spec's words
(spec §4.5): the elementwise application `a = σ(z)` of the scalar
activation. -/
def specActivate (sig : ℚ → ℚ) (v : Vector) : Vector :=
  ⟨v.m_size, fun i => sig (v.m_data i)⟩

/-- Refinement target for claim C1, written from the spec's words
(spec §4.5): the layer recurrence `a_0 = input`,
`z_k = W_k · a_{k-1} + b_k`, `a_k = σ(z_k)`, folded over all weight
layers; the result is `a_L`. -/
def specForward (sig : ℚ → ℚ) (ws : List Matrix2D) (bs : List Vector)
    (input : Vector) : Vector :=
  (ws.zip bs).foldl (fun a p => specActivate sig (specAdd (specMatVec p.1 a) p.2)) input

/-- Spec-side description for claim C3: the per-example losses produced
by running `backward` once per example in input order, threading the
network state. -/
def specExampleLosses (sig : ℚ → ℚ) : NeuralNetwork → List (Vector × Vector) → List ℚ
  | _, [] => []
  | nn, p :: ps =>
      (NeuralNetwork.backward sig nn p.1 p.2).2 ::
        specExampleLosses sig (NeuralNetwork.backward sig nn p.1 p.2).1 ps

/-- Spec-side description for claim C3: the network state at the start
of epoch `e`, obtained by folding `backward` over the examples `e`
times. -/
def specNetAt (sig : ℚ → ℚ) (pairs : List (Vector × Vector)) :
    NeuralNetwork → ℕ → NeuralNetwork
  | nn, 0 => nn
  | nn, e + 1 =>
      specNetAt sig pairs
        (pairs.foldl (fun m p => (NeuralNetwork.backward sig m p.1 p.2).1) nn) e

/-! ## Basic container lemmas -/

@[simp]
lemma Vector.mkZero_m_size (n : ℕ) : (Vector.mkZero n).m_size = n := rfl

@[simp]
lemma Vector.build_m_size (n : ℕ) (f : ℕ → ℚ) : (Vector.build n f).m_size = n := rfl

lemma Vector.build_m_data_lt {n i : ℕ} (f : ℕ → ℚ) (h : i < n) :
    (Vector.build n f).m_data i = f i := if_pos h

@[simp]
lemma Vector.getSize_eq (v : Vector) : v.getSize = v.m_size := rfl

@[simp]
lemma Matrix2D.mkZero_m_rows (r c : ℕ) : (Matrix2D.mkZero r c).m_rows = r := rfl

@[simp]
lemma Matrix2D.mkZero_m_cols (r c : ℕ) : (Matrix2D.mkZero r c).m_cols = c := rfl

@[simp]
lemma Matrix2D.build_m_rows (r c : ℕ) (f : ℕ → ℕ → ℚ) :
    (Matrix2D.build r c f).m_rows = r := rfl

@[simp]
lemma Matrix2D.build_m_cols (r c : ℕ) (f : ℕ → ℕ → ℚ) :
    (Matrix2D.build r c f).m_cols = c := rfl

lemma Matrix2D.build_entry_lt {r c i j : ℕ} (f : ℕ → ℕ → ℚ) (hi : i < r) (hj : j < c) :
    (Matrix2D.build r c f).m_data i j = f i j := if_pos ⟨hi, hj⟩

lemma Vector.add_m_size (a b : Vector) : (a.add b).m_size = a.m_size := by
  unfold Vector.add; split <;> rfl

lemma Vector.sub_m_size (a b : Vector) : (a.sub b).m_size = a.m_size := by
  unfold Vector.sub; split <;> rfl

@[simp]
lemma Vector.smul_m_size (v : Vector) (c : ℚ) : (v.smul c).m_size = v.m_size := rfl

lemma Vector.hadamard_m_size (a b : Vector) : (a.hadamard b).m_size = a.m_size := by
  unfold Vector.hadamard; split <;> rfl

lemma Matrix2D.sub_m_rows (a b : Matrix2D) : (a.sub b).m_rows = a.m_rows := by
  unfold Matrix2D.sub; split <;> rfl

lemma Matrix2D.sub_m_cols (a b : Matrix2D) : (a.sub b).m_cols = a.m_cols := by
  unfold Matrix2D.sub; split <;> rfl

lemma Vector.add_m_data {a b : Vector} (h : a.m_size = b.m_size) {i : ℕ}
    (hi : i < a.m_size) :
    (a.add b).m_data i = a.m_data i + b.m_data i := by
  unfold Vector.add
  rw [if_neg (by simp [h])]
  exact Vector.build_m_data_lt _ hi

lemma foldl_add_range (f : ℕ → ℚ) :
    ∀ (n : ℕ) (c : ℚ),
      (List.range n).foldl (fun s i => s + f i) c = c + ∑ i in Finset.range n, f i := by
  intro n
  induction n with
  | zero => intro c; simp
  | succ n ih =>
      intro c
      rw [List.range_succ, List.foldl_append, ih, Finset.sum_range_succ]
      simp [add_assoc]

lemma Matrix2D.mulVec_m_size {m : Matrix2D} {v : Vector} (h : m.m_cols = v.getSize) :
    (m.mulVec v).m_size = m.m_rows := by
  unfold Matrix2D.mulVec
  rw [if_neg (by simp [h])]
  rfl

lemma Matrix2D.mulVec_m_data {m : Matrix2D} {v : Vector} (h : m.m_cols = v.getSize)
    {j : ℕ} (hj : j < m.m_rows) :
    (m.mulVec v).m_data j = ∑ i in Finset.range m.m_cols, m.m_data j i * v.m_data i := by
  unfold Matrix2D.mulVec
  rw [if_neg (by simp [h])]
  rw [Vector.build_m_data_lt _ hj, foldl_add_range]
  simp

lemma Vector.beq_iff_equiv (a b : Vector) : Vector.beq a b = true ↔ VecEquiv a b := by
  by_cases h : a.m_size = b.m_size
  · simp [Vector.beq, VecEquiv, h, List.all_eq_true, List.mem_range]
  · simp [Vector.beq, VecEquiv, h]

lemma Matrix2D.beq_iff_parts (a b : Matrix2D) :
    Matrix2D.beq a b = true ↔
      a.m_rows = b.m_rows ∧ a.m_cols = b.m_cols ∧
        ∀ i < a.m_rows, ∀ j < a.m_cols, a.m_data i j = b.m_data i j := by
  by_cases hr : a.m_rows = b.m_rows
  · by_cases hc : a.m_cols = b.m_cols
    · simp [Matrix2D.beq, hr, hc, List.all_eq_true, List.mem_range]
    · simp [Matrix2D.beq, hr, hc]
  · simp [Matrix2D.beq, hr]

/-! ## Shape-invariant lemmas -/

lemma layerShapesOK_cons {l0 l1 : ℕ} {rest : List ℕ} {w : Matrix2D}
    {ws : List Matrix2D} {b : Vector} {bs : List Vector} :
    NeuralNetwork.layerShapesOK (l0 :: l1 :: rest) (w :: ws) (b :: bs) = true ↔
      w.m_rows = l1 ∧ w.m_cols = l0 ∧ b.m_size = l1 ∧
        NeuralNetwork.layerShapesOK (l1 :: rest) ws bs = true := by
  simp [NeuralNetwork.layerShapesOK, Bool.and_eq_true, beq_iff_eq, and_assoc]

lemma updateParams_shapesOK (lr : ℚ) (L : List ℕ) (ws : List Matrix2D)
    (bs ds acts : List Vector)
    (h : NeuralNetwork.layerShapesOK L ws bs = true) :
    NeuralNetwork.layerShapesOK L (NeuralNetwork.updateParams lr ws bs ds acts).1
      (NeuralNetwork.updateParams lr ws bs ds acts).2 = true := by
  induction ws generalizing L bs ds acts with
  | nil => simpa [NeuralNetwork.updateParams] using h
  | cons w ws ih =>
      cases L with
      | nil => simp [NeuralNetwork.layerShapesOK] at h
      | cons l0 L1 =>
        cases L1 with
        | nil => simp [NeuralNetwork.layerShapesOK] at h
        | cons l1 rest =>
          cases bs with
          | nil => simp [NeuralNetwork.layerShapesOK] at h
          | cons b bs =>
            rw [layerShapesOK_cons] at h
            obtain ⟨h1, h2, h3, h4⟩ := h
            simp only [NeuralNetwork.updateParams, List.headD_cons, List.tail_cons]
            rw [layerShapesOK_cons]
            exact ⟨by rw [Matrix2D.sub_m_rows]; exact h1,
              by rw [Matrix2D.sub_m_cols]; exact h2,
              by rw [Vector.sub_m_size]; exact h3,
              ih (l1 :: rest) bs ds.tail acts.tail h4⟩

lemma buildLayers_shapesOK (draws : ℕ → ℕ → ℕ → ℚ) (L : List ℕ) :
    ∀ (k : ℕ), L ≠ [] →
      NeuralNetwork.layerShapesOK L (NeuralNetwork.buildLayers draws k L).1
        (NeuralNetwork.buildLayers draws k L).2 = true := by
  induction L with
  | nil => intro k h; exact absurd rfl h
  | cons l0 L1 ih =>
      intro k _
      cases L1 with
      | nil => simp [NeuralNetwork.buildLayers, NeuralNetwork.layerShapesOK]
      | cons l1 rest =>
          simp only [NeuralNetwork.buildLayers]
          rw [layerShapesOK_cons]
          exact ⟨rfl, rfl, rfl, ih (k + 1) (by simp)⟩

lemma layerShapesOK_lengths (L : List ℕ) (ws : List Matrix2D) (bs : List Vector)
    (h : NeuralNetwork.layerShapesOK L ws bs = true) :
    ws.length = L.length - 1 ∧ bs.length = ws.length := by
  induction ws generalizing L bs with
  | nil =>
      cases L with
      | nil => simp [NeuralNetwork.layerShapesOK] at h
      | cons l0 L1 =>
        cases L1 with
        | nil =>
            cases bs with
            | nil => simp
            | cons b bs => simp [NeuralNetwork.layerShapesOK] at h
        | cons l1 rest => simp [NeuralNetwork.layerShapesOK] at h
  | cons w ws ih =>
      cases L with
      | nil => simp [NeuralNetwork.layerShapesOK] at h
      | cons l0 L1 =>
        cases L1 with
        | nil => simp [NeuralNetwork.layerShapesOK] at h
        | cons l1 rest =>
          cases bs with
          | nil => simp [NeuralNetwork.layerShapesOK] at h
          | cons b bs =>
            rw [layerShapesOK_cons] at h
            obtain ⟨-, -, -, h4⟩ := h
            obtain ⟨e1, e2⟩ := ih (l1 :: rest) bs h4
            constructor
            · simp only [List.length_cons] at e1 ⊢
              omega
            · simp [e2]

lemma layerShapesOK_index (L : List ℕ) (ws : List Matrix2D) (bs : List Vector)
    (h : NeuralNetwork.layerShapesOK L ws bs = true) :
    ∀ k < ws.length,
      (ws.getD k (Matrix2D.mkZero 0 0)).m_rows = L.getD (k + 1) 0 ∧
      (ws.getD k (Matrix2D.mkZero 0 0)).m_cols = L.getD k 0 ∧
      (bs.getD k (Vector.mkZero 0)).m_size = L.getD (k + 1) 0 := by
  induction ws generalizing L bs with
  | nil => intro k hk; simp at hk
  | cons w ws ih =>
      cases L with
      | nil => simp [NeuralNetwork.layerShapesOK] at h
      | cons l0 L1 =>
        cases L1 with
        | nil => simp [NeuralNetwork.layerShapesOK] at h
        | cons l1 rest =>
          cases bs with
          | nil => simp [NeuralNetwork.layerShapesOK] at h
          | cons b bs =>
            rw [layerShapesOK_cons] at h
            obtain ⟨h1, h2, h3, h4⟩ := h
            intro k hk
            cases k with
            | zero => exact ⟨h1, h2, h3⟩
            | succ k =>
                have := ih (l1 :: rest) bs h4 k (by simpa using hk)
                simpa using this

/-! ## Frame lemmas for forward -/

lemma NeuralNetwork.forward_frame (sig : ℚ → ℚ) (nn : NeuralNetwork) (input : Vector) :
    (NeuralNetwork.forward sig nn input).1.m_layers = nn.m_layers ∧
    (NeuralNetwork.forward sig nn input).1.m_weights = nn.m_weights ∧
    (NeuralNetwork.forward sig nn input).1.m_biases = nn.m_biases ∧
    (NeuralNetwork.forward sig nn input).1.m_learningRate = nn.m_learningRate ∧
    (NeuralNetwork.forward sig nn input).1.m_activation = nn.m_activation ∧
    (NeuralNetwork.forward sig nn input).1.m_loss = nn.m_loss := by
  unfold NeuralNetwork.forward
  split <;> exact ⟨rfl, rfl, rfl, rfl, rfl, rfl⟩

/-! ## Forward pass against the spec recurrence -/

@[simp]
lemma specMatVec_m_size (w : Matrix2D) (a : Vector) :
    (specMatVec w a).m_size = w.m_rows := rfl

@[simp]
lemma specAdd_m_size (u v : Vector) : (specAdd u v).m_size = u.m_size := rfl

@[simp]
lemma specActivate_m_size (sig : ℚ → ℚ) (v : Vector) :
    (specActivate sig v).m_size = v.m_size := rfl

lemma VecEquiv.refl (a : Vector) : VecEquiv a a := ⟨rfl, fun _ _ => rfl⟩

lemma forwardLoop_spec (sig : ℚ → ℚ) (ws : List Matrix2D) :
    ∀ (l0 : ℕ) (L : List ℕ) (bs : List Vector) (a aSpec : Vector),
      NeuralNetwork.layerShapesOK (l0 :: L) ws bs = true →
      a.m_size = l0 → VecEquiv a aSpec →
      VecEquiv (NeuralNetwork.forwardLoop sig ws bs a).2.2
        ((ws.zip bs).foldl
          (fun x p => specActivate sig (specAdd (specMatVec p.1 x) p.2)) aSpec) := by
  induction ws with
  | nil =>
      intro l0 L bs a aSpec _ _ hEquiv
      simpa [NeuralNetwork.forwardLoop] using hEquiv
  | cons w ws ih =>
      intro l0 L bs a aSpec h hsize hEquiv
      cases L with
      | nil => simp [NeuralNetwork.layerShapesOK] at h
      | cons l1 rest =>
        cases bs with
        | nil => simp [NeuralNetwork.layerShapesOK] at h
        | cons b bs =>
          rw [layerShapesOK_cons] at h
          obtain ⟨h1, h2, h3, h4⟩ := h
          have hcols : w.m_cols = a.getSize := by
            rw [Vector.getSize_eq, hsize]; exact h2
          have hmulsize : (w.mulVec a).m_size = l1 := by
            rw [Matrix2D.mulVec_m_size hcols]; exact h1
          have hzsize : ((w.mulVec a).add b).m_size = l1 := by
            rw [Vector.add_m_size]; exact hmulsize
          have hstep : VecEquiv (ActivationFunction.sigmoid sig ((w.mulVec a).add b))
              (specActivate sig (specAdd (specMatVec w aSpec) b)) := by
            refine ⟨?_, ?_⟩
            · simp [ActivationFunction.sigmoid, hzsize, h1]
            · intro i hi
              have hi1 : i < l1 := by
                simpa [ActivationFunction.sigmoid, hzsize] using hi
              have hiz : i < ((w.mulVec a).add b).m_size := by rw [hzsize]; exact hi1
              unfold ActivationFunction.sigmoid
              rw [Vector.getSize_eq, Vector.build_m_data_lt _ hiz]
              have hzdata : ((w.mulVec a).add b).m_data i =
                  (w.mulVec a).m_data i + b.m_data i :=
                Vector.add_m_data (by rw [hmulsize, h3]) (by rw [hmulsize]; exact hi1)
              have hmi : i < w.m_rows := by rw [h1]; exact hi1
              have hmul : (w.mulVec a).m_data i =
                  ∑ t in Finset.range w.m_cols, w.m_data i t * a.m_data t :=
                Matrix2D.mulVec_m_data hcols hmi
              have hsum : ∑ t in Finset.range w.m_cols, w.m_data i t * a.m_data t =
                  ∑ t in Finset.range w.m_cols, w.m_data i t * aSpec.m_data t := by
                refine Finset.sum_congr rfl fun t ht => ?_
                rw [Finset.mem_range] at ht
                rw [hEquiv.2 t (by rw [hsize]; rw [← h2]; exact ht)]
              simp only [specActivate, specAdd, specMatVec]
              rw [hzdata, hmul, hsum]
          have ha'size : (ActivationFunction.sigmoid sig ((w.mulVec a).add b)).m_size = l1 := by
            simpa [ActivationFunction.sigmoid] using hzsize
          have := ih l1 rest bs
            (ActivationFunction.sigmoid sig ((w.mulVec a).add b))
            (specActivate sig (specAdd (specMatVec w aSpec) b))
            h4 ha'size hstep
          simpa [NeuralNetwork.forwardLoop, List.zip_cons_cons] using this

lemma backward_wellFormed (sig : ℚ → ℚ) (nn : NeuralNetwork) (input target : Vector)
    (h : NeuralNetwork.wellFormed nn = true) :
    NeuralNetwork.wellFormed (NeuralNetwork.backward sig nn input target).1 = true := by
  obtain ⟨hL, hW, hB, hR, -, -⟩ := NeuralNetwork.forward_frame sig nn input
  unfold NeuralNetwork.wellFormed at h ⊢
  simp only [NeuralNetwork.backward]
  rw [hL, hW, hB, hR]
  exact updateParams_shapesOK _ _ _ _ _ _ h

lemma runExamples_wellFormed (sig : ℚ → ℚ) (ps : List (Vector × Vector)) :
    ∀ (nn : NeuralNetwork) (acc : ℚ), NeuralNetwork.wellFormed nn = true →
      NeuralNetwork.wellFormed (NeuralNetwork.runExamples sig nn acc ps).1 = true := by
  induction ps with
  | nil => intro nn acc h; simpa [NeuralNetwork.runExamples] using h
  | cons p ps ih =>
      intro nn acc h
      simp only [NeuralNetwork.runExamples]
      exact ih _ _ (backward_wellFormed sig nn p.1 p.2 h)

lemma trainLoop_wellFormed (sig : ℚ → ℚ) (pairs : List (Vector × Vector)) (n : ℕ) :
    ∀ (k : ℕ) (nn : NeuralNetwork), NeuralNetwork.wellFormed nn = true →
      NeuralNetwork.wellFormed (NeuralNetwork.trainLoop sig pairs n nn k).1 = true := by
  intro k
  induction k with
  | zero => intro nn h; simpa [NeuralNetwork.trainLoop] using h
  | succ k ih =>
      intro nn h
      simp only [NeuralNetwork.trainLoop]
      exact ih _ (runExamples_wellFormed sig pairs nn 0 h)

/-! ## Training-loop bookkeeping -/

lemma runExamples_split (sig : ℚ → ℚ) (ps : List (Vector × Vector)) :
    ∀ (nn : NeuralNetwork) (acc : ℚ),
      (NeuralNetwork.runExamples sig nn acc ps).2 =
        acc + (specExampleLosses sig nn ps).sum ∧
      (NeuralNetwork.runExamples sig nn acc ps).1 =
        ps.foldl (fun m p => (NeuralNetwork.backward sig m p.1 p.2).1) nn := by
  induction ps with
  | nil => intro nn acc; simp [NeuralNetwork.runExamples, specExampleLosses]
  | cons p ps ih =>
      intro nn acc
      simp only [NeuralNetwork.runExamples, specExampleLosses, List.sum_cons,
        List.foldl_cons]
      obtain ⟨e1, e2⟩ := ih (NeuralNetwork.backward sig nn p.1 p.2).1
        (acc + (NeuralNetwork.backward sig nn p.1 p.2).2)
      exact ⟨by rw [e1]; ring, e2⟩

lemma trainLoop_history_length (sig : ℚ → ℚ) (pairs : List (Vector × Vector)) (n : ℕ) :
    ∀ (k : ℕ) (nn : NeuralNetwork),
      (NeuralNetwork.trainLoop sig pairs n nn k).2.length = k := by
  intro k
  induction k with
  | zero => intro nn; rfl
  | succ k ih =>
      intro nn
      simp only [NeuralNetwork.trainLoop, List.length_cons, ih]

lemma trainLoop_history_getD (sig : ℚ → ℚ) (pairs : List (Vector × Vector)) (n : ℕ) :
    ∀ (k e : ℕ) (nn : NeuralNetwork), e < k →
      (NeuralNetwork.trainLoop sig pairs n nn k).2.getD e 0 =
        (specExampleLosses sig (specNetAt sig pairs nn e) pairs).sum / (n : ℚ) := by
  intro k
  induction k with
  | zero => intro e nn he; omega
  | succ k ih =>
      intro e nn _he
      simp only [NeuralNetwork.trainLoop]
      cases e with
      | zero =>
          simp only [List.getD_cons_zero, specNetAt]
          rw [(runExamples_split sig pairs nn 0).1, zero_add]
      | succ e =>
          simp only [List.getD_cons_succ]
          rw [ih e (NeuralNetwork.runExamples sig nn 0 pairs).1 (by omega)]
          rw [(runExamples_split sig pairs nn 0).2]
          rfl

/-! ## Persistence round-trip lemmas -/

lemma readNats_roundtrip (l : List ℕ) : ∀ (r : List Tok),
    NeuralNetwork.readNats l.length (l.map Tok.nat ++ r) = some (l, r) := by
  induction l with
  | nil => intro r; rfl
  | cons x l ih =>
      intro r
      simp only [List.length_cons, List.map_cons, List.cons_append,
        NeuralNetwork.readNats, NeuralNetwork.readNat, Option.bind_eq_bind,
        Option.some_bind, ih]
      rfl

lemma readNums_roundtrip (l : List ℚ) : ∀ (r : List Tok),
    NeuralNetwork.readNums l.length (l.map Tok.num ++ r) = some (l, r) := by
  induction l with
  | nil => intro r; rfl
  | cons x l ih =>
      intro r
      simp only [List.length_cons, List.map_cons, List.cons_append,
        NeuralNetwork.readNums, NeuralNetwork.readNum, Option.bind_eq_bind,
        Option.some_bind, ih]
      rfl

lemma readNums_of_length {l : List ℚ} {n : ℕ} (h : l.length = n) (r : List Tok) :
    NeuralNetwork.readNums n (l.map Tok.num ++ r) = some (l, r) :=
  h ▸ readNums_roundtrip l r

lemma rowMajor_length (m : Matrix2D) :
    (NeuralNetwork.rowMajor m).length = m.m_rows * m.m_cols := by
  unfold NeuralNetwork.rowMajor
  generalize m.m_rows = R
  induction R with
  | zero => simp
  | succ R ih =>
      rw [List.range_succ, List.flatMap_append]
      simp only [List.length_append, ih, List.flatMap_cons, List.flatMap_nil,
        List.append_nil, List.length_map, List.length_range]
      ring

@[simp]
lemma entriesOf_length (v : Vector) :
    (NeuralNetwork.entriesOf v).length = v.m_size := by
  simp [NeuralNetwork.entriesOf]

lemma getD_map_range {C j : ℕ} (g : ℕ → ℚ) (hj : j < C) :
    (((List.range C).map g).getD j 0) = g j := by
  rw [List.getD_eq_getElem?_getD, List.getElem?_map, List.getElem?_range hj]
  rfl

lemma rowMajor_getD (m : Matrix2D) {i j : ℕ} (hi : i < m.m_rows) (hj : j < m.m_cols) :
    (NeuralNetwork.rowMajor m).getD (i * m.m_cols + j) 0 = m.m_data i j := by
  unfold NeuralNetwork.rowMajor
  have key : ∀ (R : ℕ) (f : ℕ → ℕ → ℚ), i < R →
      (((List.range R).flatMap fun i => (List.range m.m_cols).map (f i)).getD
        (i * m.m_cols + j) 0) = f i j := by
    intro R
    induction R with
    | zero => intro f h; omega
    | succ R ih =>
        intro f hiR
        rw [List.range_succ, List.flatMap_append]
        have hlen : ((List.range R).flatMap fun i =>
            (List.range m.m_cols).map (f i)).length = R * m.m_cols := by
          have := rowMajor_length ⟨R, m.m_cols, f⟩
          simpa [NeuralNetwork.rowMajor] using this
        rcases Nat.lt_or_ge i R with hlt | hge
        · rw [List.getD_append]
          · exact ih f hlt
          · rw [hlen]
            calc i * m.m_cols + j < i * m.m_cols + m.m_cols := by omega
              _ = (i + 1) * m.m_cols := by ring
              _ ≤ R * m.m_cols := Nat.mul_le_mul_right _ (by omega)
        · have hieq : i = R := by omega
          subst hieq
          rw [List.getD_append_right _ _ _ _ (by rw [hlen]; exact Nat.le_add_right _ _)]
          rw [hlen]
          simp only [List.flatMap_cons, List.flatMap_nil, List.append_nil]
          have : i * m.m_cols + j - i * m.m_cols = j := by omega
          rw [this, getD_map_range _ hj]
  exact key m.m_rows m.m_data hi

lemma ofRowMajor_beq (w : Matrix2D) :
    Matrix2D.beq (NeuralNetwork.ofRowMajor w.m_rows w.m_cols (NeuralNetwork.rowMajor w))
      w = true := by
  rw [Matrix2D.beq_iff_parts]
  refine ⟨rfl, rfl, ?_⟩
  intro i hi j hj
  unfold NeuralNetwork.ofRowMajor
  have hi' : i < w.m_rows := hi
  have hj' : j < w.m_cols := hj
  rw [Matrix2D.build_entry_lt _ hi' hj', rowMajor_getD w hi' hj']

lemma ofList_entriesOf_beq (v : Vector) {n : ℕ} (h : n = v.m_size) :
    Vector.beq (Vector.ofList n (NeuralNetwork.entriesOf v)) v = true := by
  subst h
  rw [Vector.beq_iff_equiv]
  refine ⟨rfl, ?_⟩
  intro i hi
  unfold Vector.ofList NeuralNetwork.entriesOf
  simp only [List.length_map, List.length_range]
  rw [if_pos ⟨hi, hi⟩]
  exact getD_map_range _ hi

lemma readLayers_roundtrip :
    ∀ (L : List ℕ) (ws : List Matrix2D) (bs : List Vector) (r : List Tok),
      NeuralNetwork.layerShapesOK L ws bs = true →
      NeuralNetwork.readLayers ws.length
        (((ws.zip bs).flatMap fun p => NeuralNetwork.layerTokens p.1 p.2) ++ r) =
        some ((ws.zip bs).map fun p =>
          (NeuralNetwork.ofRowMajor p.1.m_rows p.1.m_cols (NeuralNetwork.rowMajor p.1),
           Vector.ofList p.1.m_rows (NeuralNetwork.entriesOf p.2)), r) := by
  intro L ws
  induction ws generalizing L with
  | nil => intro bs r _; rfl
  | cons w ws ih =>
      intro bs r h
      cases L with
      | nil => simp [NeuralNetwork.layerShapesOK] at h
      | cons l0 L1 =>
        cases L1 with
        | nil => simp [NeuralNetwork.layerShapesOK] at h
        | cons l1 rest =>
          cases bs with
          | nil => simp [NeuralNetwork.layerShapesOK] at h
          | cons b bs =>
            rw [layerShapesOK_cons] at h
            obtain ⟨h1, h2, h3, h4⟩ := h
            have hb : (NeuralNetwork.entriesOf b).length = w.m_rows := by
              rw [entriesOf_length, h3, h1]
            simp only [List.zip_cons_cons, List.flatMap_cons,
              NeuralNetwork.layerTokens, List.length_cons, List.cons_append,
              List.append_assoc, List.map_cons]
            simp only [NeuralNetwork.readLayers, NeuralNetwork.readNat,
              Option.bind_eq_bind, Option.some_bind]
            rw [readNums_of_length (rowMajor_length w)]
            simp only [Option.some_bind]
            rw [readNums_of_length hb]
            simp only [Option.some_bind]
            have ih' := ih (l1 :: rest) bs r h4
            simp only [NeuralNetwork.layerTokens] at ih'
            rw [ih']
            rfl

/-! ## Claim theorems: linear-algebra fallback policies -/

/-- C5: elementwise addition and subtraction on size-mismatched vectors
and shape-mismatched matrices return the left operand unchanged (the
mismatch branch returns `*this` before any elementwise computation,
src/src/linalg.cpp:95-119 and 284-312). -/
theorem C5_mismatch_add_sub_returns_left (a b : Vector) (A B : Matrix2D)
    (hv : a.m_size ≠ b.m_size)
    (hm : A.m_rows ≠ B.m_rows ∨ A.m_cols ≠ B.m_cols) :
    a.add b = a ∧ a.sub b = a ∧ A.add B = A ∧ A.sub B = A := by
  refine ⟨?_, ?_, ?_, ?_⟩
  · unfold Vector.add; exact if_pos hv
  · unfold Vector.sub; exact if_pos hv
  · unfold Matrix2D.add; exact if_pos hm
  · unfold Matrix2D.sub; exact if_pos hm

theorem C5_witness :
    (Vector.mkZero 1).m_size ≠ (Vector.mkZero 2).m_size ∧
    (Matrix2D.mkZero 1 1).m_rows ≠ (Matrix2D.mkZero 2 1).m_rows ∧
    (Vector.mkZero 1).add (Vector.mkZero 2) = Vector.mkZero 1 ∧
    (Vector.mkZero 1).sub (Vector.mkZero 2) = Vector.mkZero 1 ∧
    (Matrix2D.mkZero 1 1).add (Matrix2D.mkZero 2 1) = Matrix2D.mkZero 1 1 ∧
    (Matrix2D.mkZero 1 1).sub (Matrix2D.mkZero 2 1) = Matrix2D.mkZero 1 1 := by
  have h := C5_mismatch_add_sub_returns_left (Vector.mkZero 1) (Vector.mkZero 2)
    (Matrix2D.mkZero 1 1) (Matrix2D.mkZero 2 1) (by decide) (Or.inl (by decide))
  exact ⟨by decide, by decide, h.1, h.2.1, h.2.2.1, h.2.2.2⟩

/-- C6 counterexample: for the 2×2 zero matrix and a 3-vector the
matrix-vector product of src/src/linalg.cpp:333-348 returns the
zero-LENGTH vector `Vector<T>(0)`, not a zero vector of the matrix's row
count: its size is 0 while the matrix has 2 rows. -/
theorem C6_counterexample :
    (Matrix2D.mkZero 2 2).m_cols ≠ (Vector.mkZero 3).getSize ∧
    ((Matrix2D.mkZero 2 2).mulVec (Vector.mkZero 3)).getSize = 0 ∧
    ((Matrix2D.mkZero 2 2).mulVec (Vector.mkZero 3)).getSize ≠
      (Matrix2D.mkZero 2 2).getSizeRows := by
  decide

/-- C6 (amended): for every matrix `M` and vector `v` with
`M.getSizeCols() != v.getSize()`, the matrix-vector multiplication
operator returns the empty vector `Vector<T>(0)` — a zero vector of
length 0, regardless of the matrix's row count. -/
theorem C6_mulVec_mismatch_returns_empty (m : Matrix2D) (v : Vector)
    (h : m.m_cols ≠ v.getSize) :
    m.mulVec v = Vector.mkZero 0 := by
  unfold Matrix2D.mulVec; exact if_pos h

theorem C6_witness :
    (Matrix2D.mkZero 2 2).m_cols ≠ (Vector.mkZero 3).getSize ∧
    (Matrix2D.mkZero 2 2).mulVec (Vector.mkZero 3) = Vector.mkZero 0 :=
  ⟨by decide, C6_mulVec_mismatch_returns_empty (Matrix2D.mkZero 2 2) (Vector.mkZero 3) (by decide)⟩

/-- C7: on equal-length inputs `meanSquaredError` is
`(1/n) Σ (ŷ_i − y_i)²` and `meanSquaredErrorDerivative` has entries
`2(ŷ_i − y_i)/n`; on mismatched lengths they return `0` and the empty
zero vector (src/src/neuralNetworkFunctions.cpp:54-79). -/
theorem C7_meanSquaredError_spec (p a : Vector) :
    (p.getSize = a.getSize →
      LossFunction.meanSquaredError p a =
        (1 / (p.getSize : ℚ)) * ∑ i in Finset.range p.getSize,
          (p.m_data i - a.m_data i) ^ 2 ∧
      (LossFunction.meanSquaredErrorDerivative p a).getSize = p.getSize ∧
      ∀ i < p.getSize,
        (LossFunction.meanSquaredErrorDerivative p a).m_data i =
          2 * (p.m_data i - a.m_data i) / (p.getSize : ℚ)) ∧
    (p.getSize ≠ a.getSize →
      LossFunction.meanSquaredError p a = 0 ∧
      LossFunction.meanSquaredErrorDerivative p a = Vector.mkZero 0 ∧
      (LossFunction.meanSquaredErrorDerivative p a).isZero = true) := by
  constructor
  · intro h
    refine ⟨?_, ?_, ?_⟩
    · unfold LossFunction.meanSquaredError
      rw [if_neg (by simpa using h), foldl_add_range]
      rw [zero_add, one_div, inv_mul_eq_div]
      congr 1
      refine Finset.sum_congr rfl fun i _ => ?_
      rw [pow_two]
    · unfold LossFunction.meanSquaredErrorDerivative
      rw [if_neg (by simpa using h)]
      rfl
    · intro i hi
      unfold LossFunction.meanSquaredErrorDerivative
      rw [if_neg (by simpa using h)]
      exact Vector.build_m_data_lt _ hi
  · intro h
    refine ⟨?_, ?_, ?_⟩
    · unfold LossFunction.meanSquaredError
      rw [if_pos (by simpa using h)]
    · unfold LossFunction.meanSquaredErrorDerivative
      rw [if_pos (by simpa using h)]
    · unfold LossFunction.meanSquaredErrorDerivative
      rw [if_pos (by simpa using h)]
      decide

theorem C7_witness :
    (Vector.ofList 2 [1, 3]).getSize = (Vector.ofList 2 [0, 1]).getSize ∧
    LossFunction.meanSquaredError (Vector.ofList 2 [1, 3]) (Vector.ofList 2 [0, 1]) =
      (1 / ((Vector.ofList 2 [1, 3]).getSize : ℚ)) *
        ∑ i in Finset.range (Vector.ofList 2 [1, 3]).getSize,
          ((Vector.ofList 2 [1, 3]).m_data i - (Vector.ofList 2 [0, 1]).m_data i) ^ 2 :=
  ⟨by decide,
    ((C7_meanSquaredError_spec (Vector.ofList 2 [1, 3]) (Vector.ofList 2 [0, 1])).1
      (by decide)).1⟩

/-- C8: `transpose` produces a matrix of shape `(cols, rows)` and is an
involution up to `Matrix2D<T>::operator==`; being a pure function of its
argument, it does not mutate its source. -/
theorem C8_transpose_involution (A : Matrix2D) :
    A.transpose.getSizeRows = A.getSizeCols ∧
    A.transpose.getSizeCols = A.getSizeRows ∧
    Matrix2D.beq (A.transpose.transpose) A = true := by
  refine ⟨rfl, rfl, ?_⟩
  rw [Matrix2D.beq_iff_parts]
  refine ⟨rfl, rfl, fun i hi j hj => ?_⟩
  simp only [Matrix2D.transpose, Matrix2D.build_m_rows, Matrix2D.build_m_cols] at hi hj ⊢
  rw [Matrix2D.build_entry_lt _ hi hj, Matrix2D.build_entry_lt _ hj hi]

/-- C9: `forward` and `predict` leave the layer list, weights, biases,
learning rate and the activation/loss identifiers unchanged; `predict`
is exactly a `forward` call, and the only fields either writes are the
transient activation / pre-activation storage. -/
theorem C9_forward_predict_frame (sig : ℚ → ℚ) (nn : NeuralNetwork) (input : Vector) :
    (NeuralNetwork.forward sig nn input).1.m_layers = nn.m_layers ∧
    (NeuralNetwork.forward sig nn input).1.m_weights = nn.m_weights ∧
    (NeuralNetwork.forward sig nn input).1.m_biases = nn.m_biases ∧
    (NeuralNetwork.forward sig nn input).1.m_learningRate = nn.m_learningRate ∧
    (NeuralNetwork.forward sig nn input).1.m_activation = nn.m_activation ∧
    (NeuralNetwork.forward sig nn input).1.m_loss = nn.m_loss ∧
    NeuralNetwork.predict sig nn input = NeuralNetwork.forward sig nn input := by
  have h := NeuralNetwork.forward_frame sig nn input
  exact ⟨h.1, h.2.1, h.2.2.1, h.2.2.2.1, h.2.2.2.2.1, h.2.2.2.2.2, rfl⟩

/-- C10: the loss returned by `backward` is the mean squared error of
the output of the forward pass run on the entry state of the network —
i.e. it is computed from the pre-update weights and biases; the
gradient-descent update only affects the returned state, not the
returned loss (src/src/neuralNetwork.cpp:162-214). -/
theorem C10_backward_loss_pre_update (sig : ℚ → ℚ) (nn : NeuralNetwork)
    (input target : Vector) :
    (NeuralNetwork.backward sig nn input target).2 =
      LossFunction.meanSquaredError (NeuralNetwork.forward sig nn input).2 target :=
  rfl

/-- C2: the list constructor (for at least two layers) establishes the
Layer shape invariant — for every layer index `k`, `weights[k]` is a
`layers[k+1] × layers[k]` matrix and `biases[k]` has size `layers[k+1]` —
and every `backward` and `train` call preserves it; the last two
conjuncts unfold the chained invariant `wellFormed` into its per-index
reading for an arbitrary well-formed network. -/
theorem C2_layer_shape_invariant (layers : List ℕ) (lr : ℚ)
    (draws : ℕ → ℕ → ℕ → ℚ) (sig : ℚ → ℚ) (nn : NeuralNetwork)
    (input target : Vector) (inputs targets : List Vector) (epochs : ℕ)
    (verbose : Bool) (hlen : 2 ≤ layers.length)
    (hnn : NeuralNetwork.wellFormed nn = true) :
    NeuralNetwork.wellFormed (NeuralNetwork.ofLayers layers lr draws) = true ∧
    NeuralNetwork.wellFormed (NeuralNetwork.backward sig nn input target).1 = true ∧
    NeuralNetwork.wellFormed
      (NeuralNetwork.train sig nn inputs targets epochs verbose).1 = true ∧
    (∀ k < nn.m_weights.length,
      (nn.m_weights.getD k (Matrix2D.mkZero 0 0)).m_rows = nn.m_layers.getD (k + 1) 0 ∧
      (nn.m_weights.getD k (Matrix2D.mkZero 0 0)).m_cols = nn.m_layers.getD k 0 ∧
      (nn.m_biases.getD k (Vector.mkZero 0)).m_size = nn.m_layers.getD (k + 1) 0) ∧
    nn.m_weights.length = nn.m_layers.length - 1 ∧
    nn.m_biases.length = nn.m_weights.length := by
  refine ⟨?_, backward_wellFormed sig nn input target hnn, ?_, ?_, ?_⟩
  · unfold NeuralNetwork.wellFormed NeuralNetwork.ofLayers
    rw [if_neg (by omega)]
    exact buildLayers_shapesOK draws layers 0 (by intro e; rw [e] at hlen; simp at hlen)
  · unfold NeuralNetwork.train
    split
    · exact hnn
    · exact trainLoop_wellFormed sig _ _ _ nn hnn
  · exact layerShapesOK_index nn.m_layers nn.m_weights nn.m_biases hnn
  · exact layerShapesOK_lengths nn.m_layers nn.m_weights nn.m_biases hnn

/-- C1: for a well-formed network, `forward` on an input of size
`layers[0]` returns the activation `a_L` of the spec recurrence
`a_0 = input`, `z_k = W_k · a_{k-1} + b_k`, `a_k = σ(z_k)` over all
weight layers (equality in the sense of `Vector<T>::operator==`, which
also forces equal lengths); on any other input size it returns the zero
vector of length `layers.back()`. -/
theorem C1_forward_spec (sig : ℚ → ℚ) (nn : NeuralNetwork) (input : Vector)
    (h : NeuralNetwork.wellFormed nn = true) :
    (input.getSize = nn.m_layers.getD 0 0 →
      Vector.beq (NeuralNetwork.forward sig nn input).2
        (specForward sig nn.m_weights nn.m_biases input) = true) ∧
    (input.getSize ≠ nn.m_layers.getD 0 0 →
      (NeuralNetwork.forward sig nn input).2 =
        Vector.mkZero (nn.m_layers.getD (nn.m_layers.length - 1) 0)) := by
  constructor
  · intro hsize
    unfold NeuralNetwork.forward
    rw [if_neg (by simpa using hsize)]
    rw [Vector.beq_iff_equiv]
    unfold NeuralNetwork.wellFormed at h
    cases hL : nn.m_layers with
    | nil => rw [hL] at h; simp [NeuralNetwork.layerShapesOK] at h
    | cons l0 L =>
        rw [hL] at h
        refine forwardLoop_spec sig nn.m_weights l0 L nn.m_biases input input h ?_
          (VecEquiv.refl input)
        rw [← Vector.getSize_eq, hsize, hL]
        rfl
  · intro hsize
    unfold NeuralNetwork.forward
    rw [if_pos (by simpa using hsize)]

theorem C1_witness :
    NeuralNetwork.wellFormed
      (NeuralNetwork.ofLayers [1, 2] 1 fun _ _ _ => 1) = true ∧
    (Vector.mkZero 1).getSize =
      (NeuralNetwork.ofLayers [1, 2] 1 fun _ _ _ => 1).m_layers.getD 0 0 ∧
    Vector.beq
      (NeuralNetwork.forward (fun x => x)
        (NeuralNetwork.ofLayers [1, 2] 1 fun _ _ _ => 1) (Vector.mkZero 1)).2
      (specForward (fun x => x)
        (NeuralNetwork.ofLayers [1, 2] 1 fun _ _ _ => 1).m_weights
        (NeuralNetwork.ofLayers [1, 2] 1 fun _ _ _ => 1).m_biases
        (Vector.mkZero 1)) = true :=
  ⟨by decide, by decide,
    (C1_forward_spec (fun x => x) (NeuralNetwork.ofLayers [1, 2] 1 fun _ _ _ => 1)
      (Vector.mkZero 1) (by decide)).1 (by decide)⟩

theorem C2_witness :
    2 ≤ [1, 1].length ∧
    NeuralNetwork.wellFormed
      (NeuralNetwork.ofLayers [1, 1] 1 fun _ _ _ => 0) = true ∧
    NeuralNetwork.wellFormed
      (NeuralNetwork.backward (fun x => x)
        (NeuralNetwork.ofLayers [1, 1] 1 fun _ _ _ => 0)
        (Vector.mkZero 1) (Vector.mkZero 1)).1 = true := by
  have h := C2_layer_shape_invariant [1, 1] 1 (fun _ _ _ => 0) (fun x => x)
    (NeuralNetwork.ofLayers [1, 1] 1 fun _ _ _ => 0)
    (Vector.mkZero 1) (Vector.mkZero 1) [] [] 0 false
    (by decide) (by decide)
  exact ⟨by decide, h.1, h.2.1⟩

/-- C3: `train` returns the empty loss history when the input and target
counts differ; otherwise the history has length exactly `epochs` and its
entry `e` is the mean — total divided by the number of examples — of the
per-example losses returned by `backward` during epoch `e`, the examples
being processed in input order starting from the network state reached
after `e` full epochs. -/
theorem C3_train_loss_history (sig : ℚ → ℚ) (nn : NeuralNetwork)
    (inputs targets : List Vector) (epochs : ℕ) (verbose : Bool) :
    (inputs.length ≠ targets.length →
      (NeuralNetwork.train sig nn inputs targets epochs verbose).2 = []) ∧
    (inputs.length = targets.length →
      (NeuralNetwork.train sig nn inputs targets epochs verbose).2.length = epochs ∧
      ∀ e < epochs,
        (NeuralNetwork.train sig nn inputs targets epochs verbose).2.getD e 0 =
          (specExampleLosses sig (specNetAt sig (inputs.zip targets) nn e)
            (inputs.zip targets)).sum / (inputs.length : ℚ)) := by
  constructor
  · intro h
    unfold NeuralNetwork.train
    rw [if_pos h]
  · intro h
    unfold NeuralNetwork.train
    rw [if_neg (by simpa using h)]
    exact ⟨trainLoop_history_length sig (inputs.zip targets) inputs.length epochs nn,
      fun e he =>
        trainLoop_history_getD sig (inputs.zip targets) inputs.length epochs e nn he⟩

theorem C3_witness :
    [Vector.mkZero 1].length = [Vector.mkZero 1].length ∧
    (NeuralNetwork.train (fun x => x)
      (NeuralNetwork.ofLayers [1, 1] 1 fun _ _ _ => 0)
      [Vector.mkZero 1] [Vector.mkZero 1] 2 false).2.length = 2 ∧
    (NeuralNetwork.train (fun x => x)
      (NeuralNetwork.ofLayers [1, 1] 1 fun _ _ _ => 0)
      [Vector.mkZero 1] [Vector.mkZero 1] 2 false).2.getD 0 0 =
      (specExampleLosses (fun x => x)
        (specNetAt (fun x => x) ([Vector.mkZero 1].zip [Vector.mkZero 1])
          (NeuralNetwork.ofLayers [1, 1] 1 fun _ _ _ => 0) 0)
        ([Vector.mkZero 1].zip [Vector.mkZero 1])).sum /
        (([Vector.mkZero 1] : List Vector).length : ℚ) := by
  have h := (C3_train_loss_history (fun x => x)
    (NeuralNetwork.ofLayers [1, 1] 1 fun _ _ _ => 0)
    [Vector.mkZero 1] [Vector.mkZero 1] 2 false).2 rfl
  exact ⟨rfl, h.1, h.2 0 (by omega)⟩

/-- C4: for every network satisfying the Layer shape invariant, parsing
the token stream written by `save` through the file-loading constructor
succeeds and restores the layer-size list, the learning rate, the
activation and loss identifiers, and every weight matrix and bias vector
(value equality in the sense of `operator==`), because the writer and
the reader agree on the stream layout of spec §6. -/
theorem C4_save_load_roundtrip (nn : NeuralNetwork)
    (h : NeuralNetwork.wellFormed nn = true) :
    ∃ nn', NeuralNetwork.loadNetwork (NeuralNetwork.saveTokens nn) = some nn' ∧
      nn'.m_layers = nn.m_layers ∧
      nn'.m_learningRate = nn.m_learningRate ∧
      nn'.m_activation = nn.m_activation ∧
      nn'.m_loss = nn.m_loss ∧
      nn'.m_weights.length = nn.m_weights.length ∧
      nn'.m_biases.length = nn.m_biases.length ∧
      (∀ k < nn.m_weights.length,
        Matrix2D.beq (nn'.m_weights.getD k (Matrix2D.mkZero 0 0))
          (nn.m_weights.getD k (Matrix2D.mkZero 0 0)) = true) ∧
      (∀ k < nn.m_biases.length,
        Vector.beq (nn'.m_biases.getD k (Vector.mkZero 0))
          (nn.m_biases.getD k (Vector.mkZero 0)) = true) := by
  obtain ⟨hwl, hbl⟩ := layerShapesOK_lengths nn.m_layers nn.m_weights nn.m_biases h
  have hidx := layerShapesOK_index nn.m_layers nn.m_weights nn.m_biases h
  have hplen : (nn.m_weights.zip nn.m_biases).length = nn.m_weights.length := by
    rw [List.length_zip, hbl, min_self]
  have hload : NeuralNetwork.loadNetwork (NeuralNetwork.saveTokens nn) =
      some ⟨nn.m_layers,
        ((nn.m_weights.zip nn.m_biases).map fun p =>
          (NeuralNetwork.ofRowMajor p.1.m_rows p.1.m_cols (NeuralNetwork.rowMajor p.1),
           Vector.ofList p.1.m_rows (NeuralNetwork.entriesOf p.2))).map Prod.fst,
        ((nn.m_weights.zip nn.m_biases).map fun p =>
          (NeuralNetwork.ofRowMajor p.1.m_rows p.1.m_cols (NeuralNetwork.rowMajor p.1),
           Vector.ofList p.1.m_rows (NeuralNetwork.entriesOf p.2))).map Prod.snd,
        nn.m_activation, nn.m_loss, nn.m_learningRate, [], []⟩ := by
    unfold NeuralNetwork.loadNetwork NeuralNetwork.saveTokens
    simp only [NeuralNetwork.readNat, Option.bind_eq_bind, Option.some_bind]
    rw [readNats_roundtrip]
    simp only [Option.some_bind, NeuralNetwork.readNum, NeuralNetwork.readStr]
    rw [show nn.m_layers.length - 1 = nn.m_weights.length from hwl.symm]
    rw [show ((nn.m_weights.zip nn.m_biases).flatMap fun p =>
          NeuralNetwork.layerTokens p.1 p.2) =
        (((nn.m_weights.zip nn.m_biases).flatMap fun p =>
          NeuralNetwork.layerTokens p.1 p.2) ++ []) from (List.append_nil _).symm]
    rw [readLayers_roundtrip nn.m_layers nn.m_weights nn.m_biases [] h]
    rfl
  refine ⟨_, hload, rfl, rfl, rfl, rfl, ?_, ?_, ?_, ?_⟩
  · simp [hplen]
  · simp only [List.length_map, hplen]
    omega
  · intro k hk
    rw [List.getD_eq_getElem _ _ (by simp only [List.length_map, hplen]; exact hk),
      List.getD_eq_getElem _ _ hk]
    simp only [List.getElem_map, List.getElem_zip]
    exact ofRowMajor_beq _
  · intro k hkb
    have hk : k < nn.m_weights.length := by omega
    obtain ⟨hrow, -, hsize⟩ := hidx k hk
    rw [List.getD_eq_getElem _ _ (by simp only [List.length_map, hplen]; exact hk),
      List.getD_eq_getElem _ _ hkb]
    simp only [List.getElem_map, List.getElem_zip]
    refine ofList_entriesOf_beq _ ?_
    rw [List.getD_eq_getElem _ _ hk] at hrow
    rw [List.getD_eq_getElem _ _ hkb] at hsize
    rw [hrow, hsize]

theorem C4_witness :
    NeuralNetwork.wellFormed
      (NeuralNetwork.ofLayers [1, 2] (1/2) fun _ _ _ => 3) = true ∧
    ∃ nn', NeuralNetwork.loadNetwork
        (NeuralNetwork.saveTokens
          (NeuralNetwork.ofLayers [1, 2] (1/2) fun _ _ _ => 3)) = some nn' ∧
      nn'.m_layers = (NeuralNetwork.ofLayers [1, 2] (1/2) fun _ _ _ => 3).m_layers ∧
      nn'.m_learningRate =
        (NeuralNetwork.ofLayers [1, 2] (1/2) fun _ _ _ => 3).m_learningRate := by
  have h := C4_save_load_roundtrip
    (NeuralNetwork.ofLayers [1, 2] (1/2) fun _ _ _ => 3) (by decide)
  obtain ⟨nn', h1, h2, h3, -⟩ := h
  exact ⟨by decide, nn', h1, h2, h3⟩

end Femur
